import Mathlib

/-!
Shallow embedding of the eventhub seat-allocation / waitlist subsystem.

Sources embedded here:
  * `app/models.py`               — the `Event` and `Registration` rows (the
    fields the seat subsystem reads and writes).
  * `app/participant/routes.py`   — `register_event` and `cancel_registration`
    (sequential semantics of the request handlers, side effects such as QR
    files, emails and Firestore sync omitted: they never touch the
    authoritative rows).
  * `app/services/registration_service.py` — `RegistrationService.register_for_event`,
    `cancel_registration`, `mark_attendance`.
  * `app/services/waitlist_service.py` — `_atomic_promote` (behind
    `promote_from_waitlist`).
  * `app/services/event_service.py` — the capacity-resize portion of
    `EventService.update_event`.
  * `app/services/event_status_service.py` — `update_event_status`.

Times (`datetime.utcnow()`, dates, deadlines) are modelled as naturals;
`available_seats` and `max_participants` are Python ints, modelled as `Int`.
Status columns are the string columns of the schema, kept as `String`.
The database holds one event of interest together with every registration
row (rows carry their `event_id`, so queries filtered by event are faithful);
list order is insertion order, which is rowid order in SQLite.
-/

namespace EventHub

/-- The `events` row (`app/models.py`), restricted to the columns the seat
subsystem reads or writes. -/
structure Event where
  id : Nat
  organizer_id : Nat
  max_participants : Int
  available_seats : Int
  event_date : Nat
  registration_deadline : Nat
  status : String
  status_reason : Option String
  postponed_to : Option Nat
  cancelled_at : Option Nat
  is_active : Bool
  allow_waitlist : Bool
  is_paid : Bool
deriving DecidableEq

/-- The `registrations` row (`app/models.py`), restricted to the columns the
ledger operations read or write. -/
structure Registration where
  id : Nat
  user_id : Nat
  event_id : Nat
  status : String
  payment_status : String
  attended : Bool
  attendance_time : Option Nat
  created_at : Nat
deriving DecidableEq

/-- The durable store: one event of interest, all registration rows (in
insertion order), the set of existing user ids, and the next fresh row id. -/
structure DB where
  event : Event
  regs : List Registration
  users : List Nat
  next_id : Nat
deriving DecidableEq

/-- `Registration.query.filter_by(user_id=…, event_id=…).first()`. -/
def findReg (user_id event_id : Nat) (regs : List Registration) : Option Registration :=
  regs.find? (fun r => r.user_id == user_id && r.event_id == event_id)

/-- `Registration.query.get(registration_id)` (primary-key lookup). -/
def findRegById (registration_id : Nat) (regs : List Registration) : Option Registration :=
  regs.find? (fun r => r.id == registration_id)

/-- Does this row count against the event's confirmed seats? -/
def isConfirmed (event_id : Nat) (r : Registration) : Bool :=
  r.event_id == event_id && r.status == "confirmed"

/-- Is this row a waitlist row of the event? -/
def isWaitlist (event_id : Nat) (r : Registration) : Bool :=
  r.event_id == event_id && r.status == "waitlist"

/-- `Registration.query.filter_by(event_id=…, status='confirmed').count()`. -/
def ccount (event_id : Nat) (regs : List Registration) : Nat :=
  regs.countP (isConfirmed event_id)

/-- Count of waitlist rows of the event. -/
def wcount (event_id : Nat) (regs : List Registration) : Nat :=
  regs.countP (isWaitlist event_id)

/-- `Registration.query.filter_by(event_id=…, status='waitlist')`. -/
def waitlistRows (event_id : Nat) (regs : List Registration) : List Registration :=
  regs.filter (isWaitlist event_id)

/-- Scan keeping the row with the smallest `created_at`, first row winning
ties — the result of `ORDER BY created_at ASC … first()` over a rowid scan. -/
def oldestAux (best : Registration) : List Registration → Registration
  | [] => best
  | r :: rs => if r.created_at < best.created_at then oldestAux r rs else oldestAux best rs

/-- `….filter_by(event_id=…, status='waitlist').order_by(created_at.asc()).first()` —
the FIFO head of the event's waitlist. -/
def oldestWaitlist (event_id : Nat) (regs : List Registration) : Option Registration :=
  match waitlistRows event_id regs with
  | [] => none
  | r :: rs => some (oldestAux r rs)

/-- Mutate the row the ORM handed back: rewrite the first occurrence of
`target` in the table. -/
def updateFirst (target : Registration) (f : Registration → Registration) :
    List Registration → List Registration
  | [] => []
  | r :: rs => if r = target then f r :: rs else r :: updateFirst target f rs

/-- `db.session.delete(row)`: remove the first occurrence of `target`. -/
def eraseFirst (target : Registration) : List Registration → List Registration
  | [] => []
  | r :: rs => if r = target then rs else r :: eraseFirst target rs

/-- `'pending' if event.is_paid else 'not_required'`. -/
def paymentFor (e : Event) : String :=
  if e.is_paid then "pending" else "not_required"

/-- Outcomes of a register call (the flash/redirect pairs of the route, and
the `(registration, error)` pairs of the service). -/
inductive RegisterResult
  | eventNotFound
  | userNotFound
  | statusBlocked
  | alreadyRegistered
  | reRegistered (registration_id : Nat)
  | deadlinePassed
  | waitlisted
  | eventFull
  | confirmed (registration_id : Nat)
deriving DecidableEq

/-- Outcomes of a cancel call. -/
inductive CancelResult
  | notFound
  | accessDenied
  | attendedBlock
  | eventMissing
  | ok
deriving DecidableEq

/-- `register_event` of `app/participant/routes.py` (sequential semantics).
Order of the checks is the route's: 404 lookup; cancelled/postponed status
gate; `existing` row check with the cancelled-row re-registration branch;
deadline; waitlist-or-full when no seat; else the conditional decrement
(`UPDATE … WHERE available_seats > 0`), which in sequential execution
succeeds exactly when `available_seats > 0`, plus the confirmed row. -/
def register_event (now user_id event_id : Nat) (db : DB) : RegisterResult × DB :=
  if event_id ≠ db.event.id then (.eventNotFound, db)
  else if db.event.status = "cancelled" ∨ db.event.status = "postponed" then
    (.statusBlocked, db)
  else
    match findReg user_id event_id db.regs with
    | some existing =>
      if existing.status = "cancelled" then
        if db.event.available_seats ≤ 0 then (.eventFull, db)
        else
          (.reRegistered existing.id,
            { db with
                regs := updateFirst existing
                  (fun r => { r with
                      status := "confirmed"
                      payment_status := paymentFor db.event }) db.regs
                event := { db.event with
                    available_seats := db.event.available_seats - 1 } })
      else (.alreadyRegistered, db)
    | none =>
      if db.event.registration_deadline < now then (.deadlinePassed, db)
      else if db.event.available_seats ≤ 0 then
        if db.event.allow_waitlist then
          (.waitlisted,
            { db with
                regs := db.regs ++
                  [⟨db.next_id, user_id, event_id, "waitlist", "not_required",
                    false, none, now⟩]
                next_id := db.next_id + 1 })
        else (.eventFull, db)
      else
        (.confirmed db.next_id,
          { db with
              regs := db.regs ++
                [⟨db.next_id, user_id, event_id, "confirmed", paymentFor db.event,
                  false, none, now⟩]
              event := { db.event with
                  available_seats := db.event.available_seats - 1 }
              next_id := db.next_id + 1 })

/-- `RegistrationService.register_for_event` of
`app/services/registration_service.py`: user lookup, event lookup, deadline,
`existing` check (any status), seat check, confirmed insert with decrement. -/
def register_for_event (now user_id event_id : Nat) (db : DB) : RegisterResult × DB :=
  if user_id ∉ db.users then (.userNotFound, db)
  else if event_id ≠ db.event.id then (.eventNotFound, db)
  else if db.event.registration_deadline < now then (.deadlinePassed, db)
  else
    match findReg user_id event_id db.regs with
    | some _ => (.alreadyRegistered, db)
    | none =>
      if db.event.available_seats ≤ 0 then (.eventFull, db)
      else
        (.confirmed db.next_id,
          { db with
              regs := db.regs ++
                [⟨db.next_id, user_id, event_id, "confirmed", paymentFor db.event,
                  false, none, now⟩]
              event := { db.event with
                  available_seats := db.event.available_seats - 1 }
              next_id := db.next_id + 1 })

/-- `_atomic_promote` of `app/services/waitlist_service.py` (reached through
`promote_from_waitlist`): fresh event read; `available_seats <= 0` no-op;
oldest waitlist row by `created_at`; set it confirmed and consume the seat. -/
def promote_from_waitlist (event_id : Nat) (db : DB) : Option Registration × DB :=
  if event_id ≠ db.event.id then (none, db)
  else if db.event.available_seats ≤ 0 then (none, db)
  else
    match oldestWaitlist event_id db.regs with
    | none => (none, db)
    | some next_reg =>
      (some { next_reg with status := "confirmed" },
        { db with
            regs := updateFirst next_reg (fun r => { r with status := "confirmed" }) db.regs
            event := { db.event with
                available_seats := db.event.available_seats - 1 } })

/-- `RegistrationService.cancel_registration` of
`app/services/registration_service.py`: find the `(user, event)` row; refuse
after attendance; if it was confirmed, return the seat and promote the oldest
waitlist row in the same commit (the embedded promotion does not re-check the
seat count); delete the row. A missing event after a found row raises inside
the `try` and rolls back, leaving the store unchanged. -/
def cancel_registration (user_id event_id : Nat) (db : DB) : CancelResult × DB :=
  match findReg user_id event_id db.regs with
  | none => (.notFound, db)
  | some registration =>
    if registration.attended then (.attendedBlock, db)
    else if event_id ≠ db.event.id then (.eventMissing, db)
    else if registration.status = "confirmed" then
      match oldestWaitlist event_id db.regs with
      | some w =>
        (.ok,
          { db with
              regs := eraseFirst registration
                (updateFirst w (fun r => { r with status := "confirmed" }) db.regs)
              event := { db.event with
                  available_seats := db.event.available_seats + 1 - 1 } })
      | none =>
        (.ok,
          { db with
              regs := eraseFirst registration db.regs
              event := { db.event with
                  available_seats := db.event.available_seats + 1 } })
    else (.ok, { db with regs := eraseFirst registration db.regs })

/-- `cancel_registration` of `app/participant/routes.py` followed by the
`promote_from_waitlist(event_id)` call it makes after a confirmed
cancellation: ownership check, attended check, seat release plus row delete,
then the dedicated promotion service on the committed state. -/
def route_cancel_registration (current_user registration_id : Nat) (db : DB) :
    CancelResult × DB :=
  match findRegById registration_id db.regs with
  | none => (.notFound, db)
  | some registration =>
    if registration.user_id ≠ current_user then (.accessDenied, db)
    else if registration.attended then (.attendedBlock, db)
    else if registration.event_id ≠ db.event.id then (.eventMissing, db)
    else if registration.status = "confirmed" then
      (.ok,
        (promote_from_waitlist registration.event_id
          { db with
              regs := eraseFirst registration db.regs
              event := { db.event with
                  available_seats := db.event.available_seats + 1 } }).2)
    else (.ok, { db with regs := eraseFirst registration db.regs })

/-- The capacity-resize portion of `EventService.update_event`
(`app/services/event_service.py`): when a truthy `max_participants` differs
from the stored one, recount the confirmed rows and set
`available_seats = max(0, new_max - confirmed_count)`; the function always
rewrites `event_date` and `registration_deadline` from its arguments.
(Title/description/category/location/price columns are outside this model;
they never interact with the seat subsystem.) -/
def update_event (event_id organizer_id : Nat) (event_date registration_deadline : Nat)
    (max_participants : Int) (db : DB) : Bool × DB :=
  if event_id ≠ db.event.id ∨ db.event.organizer_id ≠ organizer_id then (false, db)
  else if max_participants ≠ 0 ∧ max_participants ≠ db.event.max_participants then
    (true,
      { db with
          event := { db.event with
              available_seats := max 0 (max_participants - (ccount event_id db.regs : Int))
              max_participants := max_participants
              event_date := event_date
              registration_deadline := registration_deadline } })
  else
    (true,
      { db with
          event := { db.event with
              event_date := event_date
              registration_deadline := registration_deadline } })

/-- `reason or None`: an empty or missing reason is stored as NULL. -/
def normReason (reason : Option String) : Option String :=
  if reason = some "" then none else reason

/-- `update_event_status` of `app/services/event_status_service.py`:
membership in `VALID_STATUSES = {'active', 'cancelled', 'postponed'}`, event
lookup, a required `postponed_to` when postponing, then the status write.
The current status is never consulted. -/
def update_event_status (now event_id : Nat) (new_status : String)
    (reason : Option String) (postponed_to : Option Nat) (db : DB) : Bool × DB :=
  if new_status ≠ "active" ∧ new_status ≠ "cancelled" ∧ new_status ≠ "postponed" then
    (false, db)
  else if event_id ≠ db.event.id then (false, db)
  else if new_status = "postponed" then
    match postponed_to with
    | none => (false, db)
    | some p =>
      (true,
        { db with
            event := { db.event with
                status := new_status
                status_reason := normReason reason
                postponed_to := some p
                event_date := p
                is_active := true
                cancelled_at := none } })
  else if new_status = "cancelled" then
    (true,
      { db with
          event := { db.event with
              status := new_status
              status_reason := normReason reason
              cancelled_at := some now
              is_active := false } })
  else
    (true,
      { db with
          event := { db.event with
              status := new_status
              status_reason := normReason reason
              is_active := true
              cancelled_at := none } })

/-- `RegistrationService.mark_attendance`: primary-key lookup; an already
attended row is answered `True` with no write; otherwise set `attended` and
`attendance_time` and nothing else. -/
def mark_attendance (now registration_id : Nat) (db : DB) : Bool × DB :=
  match findRegById registration_id db.regs with
  | none => (false, db)
  | some registration =>
    if registration.attended then (true, db)
    else
      (true,
        { db with
            regs := updateFirst registration
              (fun r => { r with attended := true, attendance_time := some now }) db.regs })

/-- One request against the store: the two register entry points, the two
cancel entry points, the promotion service, the capacity resize, the status
controller and attendance marking. -/
inductive Op
  | regRoute (now user_id event_id : Nat)
  | regSvc (now user_id event_id : Nat)
  | cancelSvc (user_id event_id : Nat)
  | cancelRoute (current_user registration_id : Nat)
  | promote (event_id : Nat)
  | resize (event_id organizer_id event_date registration_deadline : Nat)
      (max_participants : Int)
  | setStatus (now event_id : Nat) (new_status : String) (reason : Option String)
      (postponed_to : Option Nat)
  | attend (now registration_id : Nat)
deriving DecidableEq

/-- Effect of one request on the store. -/
def applyOp : Op → DB → DB
  | .regRoute now u e, db => (register_event now u e db).2
  | .regSvc now u e, db => (register_for_event now u e db).2
  | .cancelSvc u e, db => (cancel_registration u e db).2
  | .cancelRoute cu rid, db => (route_cancel_registration cu rid db).2
  | .promote e, db => (promote_from_waitlist e db).2
  | .resize e o ed rd m, db => (update_event e o ed rd m db).2
  | .setStatus now e s r p, db => (update_event_status now e s r p db).2
  | .attend now rid, db => (mark_attendance now rid db).2

/-- Effect of a sequence of requests. -/
def applyOps : List Op → DB → DB
  | [], db => db
  | op :: ops, db => applyOps ops (applyOp op db)

/-- The spec's conservation equality for the event of interest:
`available_seats = max_participants - count(status='confirmed')`. -/
def seatEq (db : DB) : Prop :=
  db.event.available_seats = db.event.max_participants - (ccount db.event.id db.regs : Int)

instance : DecidablePred seatEq := fun db => by unfold seatEq; infer_instance

/-- A request is a benign resize when it is not a resize at all, or the
resize does not touch the capacity column, or the new capacity covers the
rows already confirmed. -/
def resizeSafe (db : DB) : Op → Bool
  | .resize _ _ _ _ m =>
      m == 0 || m == db.event.max_participants ||
        decide ((ccount db.event.id db.regs : Int) ≤ m)
  | _ => true

/-- Every resize in the sequence is benign in the state where it fires. -/
def safeSeq (db : DB) : List Op → Bool
  | [] => true
  | op :: ops => resizeSafe db op && safeSeq (applyOp op db) ops

/-! ### Concrete stores used by the counterexamples and witnesses -/

/-- A fresh two-seat event with two participants about to register. -/
def dbResize : DB :=
  { event := ⟨1, 9, 2, 2, 100, 50, "active", none, none, none, true, false, false⟩
    regs := []
    users := [7, 8]
    next_id := 1 }

/-- The sequence: both users register, then the organizer resizes the
capacity from 2 down to 1 with both registrations still confirmed. -/
def opsResize : List Op :=
  [.regRoute 10 7 1, .regRoute 10 8 1, .resize 1 9 100 50 1]

/-- An event whose registration deadline (10) has passed, with a prior
cancelled registration row (id 4) for user 7 and seats still available. -/
def dbDeadline : DB :=
  { event := ⟨1, 9, 5, 5, 100, 10, "active", none, none, none, true, false, false⟩
    regs := [⟨4, 7, 1, "cancelled", "not_required", false, none, 3⟩]
    users := [7]
    next_id := 5 }

/-- An event already cancelled by its organizer. -/
def dbCancelled : DB :=
  { event := ⟨1, 9, 10, 10, 100, 50, "cancelled", some "venue lost", none, some 5,
      false, false, false⟩
    regs := []
    users := [7]
    next_id := 1 }

/-- An active event, used to postpone to a date already in the past. -/
def dbActive : DB :=
  { event := ⟨1, 9, 10, 10, 100, 50, "active", none, none, none, true, false, false⟩
    regs := []
    users := [7]
    next_id := 1 }

/-- A full two-seat event with confirmed users 21 and 22 and waitlist rows
A (id 3, created 10), B (id 4, created 11), C (id 5, created 12). -/
def dbFifo : DB :=
  { event := ⟨1, 9, 2, 0, 100, 50, "active", none, none, none, true, true, false⟩
    regs :=
      [⟨1, 21, 1, "confirmed", "not_required", false, none, 1⟩,
       ⟨2, 22, 1, "confirmed", "not_required", false, none, 2⟩,
       ⟨3, 31, 1, "waitlist", "not_required", false, none, 10⟩,
       ⟨4, 32, 1, "waitlist", "not_required", false, none, 11⟩,
       ⟨5, 33, 1, "waitlist", "not_required", false, none, 12⟩]
    users := [21, 22, 31, 32, 33]
    next_id := 6 }

/-- An event with one free seat and two waitlist rows, the younger row (id 1)
listed before the older one (id 2). -/
def dbPromote : DB :=
  { event := ⟨1, 9, 3, 1, 100, 50, "active", none, none, none, true, true, false⟩
    regs :=
      [⟨1, 41, 1, "waitlist", "not_required", false, none, 7⟩,
       ⟨2, 42, 1, "waitlist", "not_required", false, none, 5⟩]
    users := [41, 42]
    next_id := 3 }

/-- A full event without waitlist permission: user 7 is confirmed, user 8 is
about to hit the full-event path. -/
def dbFull : DB :=
  { event := ⟨1, 9, 1, 0, 100, 50, "active", none, none, none, true, false, false⟩
    regs := [⟨1, 7, 1, "confirmed", "not_required", false, none, 1⟩]
    users := [7, 8]
    next_id := 2 }

/-- The same full event as `dbFull` but with the waitlist allowed. -/
def dbFullWait : DB :=
  { dbFull with event := { dbFull.event with allow_waitlist := true } }

/-- A registration (id 1, not yet attended) ready for attendance marking. -/
def dbAttend : DB :=
  { event := ⟨1, 9, 5, 4, 100, 50, "active", none, none, none, true, false, false⟩
    regs := [⟨1, 7, 1, "confirmed", "not_required", false, none, 1⟩]
    users := [7]
    next_id := 2 }

/-! ### Query and table-mutation lemmas -/

theorem findReg_some {u e : Nat} {regs : List Registration} {r : Registration}
    (h : findReg u e regs = some r) : r ∈ regs ∧ r.user_id = u ∧ r.event_id = e := by
  have hm := List.mem_of_find?_eq_some h
  have hpred := List.find?_some h
  simp only [Bool.and_eq_true, beq_iff_eq] at hpred
  exact ⟨hm, hpred.1, hpred.2⟩

theorem findRegById_some {i : Nat} {regs : List Registration} {r : Registration}
    (h : findRegById i regs = some r) : r ∈ regs ∧ r.id = i := by
  have hm := List.mem_of_find?_eq_some h
  have hpred := List.find?_some h
  simp only [beq_iff_eq] at hpred
  exact ⟨hm, hpred⟩

theorem isConfirmed_eq_true {eid : Nat} {r : Registration} :
    isConfirmed eid r = true ↔ r.event_id = eid ∧ r.status = "confirmed" := by
  simp [isConfirmed]

theorem isWaitlist_eq_true {eid : Nat} {r : Registration} :
    isWaitlist eid r = true ↔ r.event_id = eid ∧ r.status = "waitlist" := by
  simp [isWaitlist]

theorem countP_updateFirst_pos (p : Registration → Bool) (f : Registration → Registration)
    {t : Registration} {regs : List Registration}
    (ht : t ∈ regs) (h1 : p t = false) (h2 : p (f t) = true) :
    (updateFirst t f regs).countP p = regs.countP p + 1 := by
  induction regs with
  | nil => cases ht
  | cons r rs ih =>
    by_cases hrt : r = t
    · subst hrt
      simp [updateFirst, List.countP_cons, h1, h2]
    · rcases List.mem_cons.mp ht with h | h
      · exact absurd h.symm hrt
      · simp only [updateFirst, if_neg hrt, List.countP_cons, ih h]
        omega

theorem countP_updateFirst_neg (p : Registration → Bool) (f : Registration → Registration)
    {t : Registration} {regs : List Registration}
    (ht : t ∈ regs) (h1 : p t = true) (h2 : p (f t) = false) :
    (updateFirst t f regs).countP p + 1 = regs.countP p := by
  induction regs with
  | nil => cases ht
  | cons r rs ih =>
    by_cases hrt : r = t
    · subst hrt
      simp [updateFirst, List.countP_cons, h1, h2]
    · rcases List.mem_cons.mp ht with h | h
      · exact absurd h.symm hrt
      · have hih := ih h
        simp only [updateFirst, if_neg hrt, List.countP_cons]
        omega

theorem countP_updateFirst_frame (p : Registration → Bool) (f : Registration → Registration)
    (t : Registration) (regs : List Registration) (h : p (f t) = p t) :
    (updateFirst t f regs).countP p = regs.countP p := by
  induction regs with
  | nil => rfl
  | cons r rs ih =>
    by_cases hrt : r = t
    · subst hrt
      simp [updateFirst, List.countP_cons, h]
    · simp only [updateFirst, if_neg hrt, List.countP_cons, ih]

theorem countP_updateFirst_le (p : Registration → Bool) (f : Registration → Registration)
    (t : Registration) (regs : List Registration) :
    (updateFirst t f regs).countP p ≤ regs.countP p + 1 := by
  induction regs with
  | nil => simp [updateFirst]
  | cons r rs ih =>
    by_cases hrt : r = t
    · subst hrt
      have hstep : updateFirst r f (r :: rs) = f r :: rs := by
        simp [updateFirst]
      rw [hstep]
      simp only [List.countP_cons]
      have hb : (if p (f r) = true then 1 else 0) ≤ 1 := by split <;> omega
      omega
    · simp only [updateFirst, if_neg hrt, List.countP_cons]
      omega

theorem countP_eraseFirst_true (p : Registration → Bool)
    {t : Registration} {regs : List Registration} (ht : t ∈ regs) (h1 : p t = true) :
    (eraseFirst t regs).countP p + 1 = regs.countP p := by
  induction regs with
  | nil => cases ht
  | cons r rs ih =>
    by_cases hrt : r = t
    · subst hrt
      simp [eraseFirst, List.countP_cons, h1]
    · rcases List.mem_cons.mp ht with h | h
      · exact absurd h.symm hrt
      · have hih := ih h
        simp only [eraseFirst, if_neg hrt, List.countP_cons]
        omega

theorem countP_eraseFirst_false (p : Registration → Bool)
    (t : Registration) (regs : List Registration) (h1 : p t = false) :
    (eraseFirst t regs).countP p = regs.countP p := by
  induction regs with
  | nil => rfl
  | cons r rs ih =>
    by_cases hrt : r = t
    · subst hrt
      simp [eraseFirst, List.countP_cons, h1]
    · simp only [eraseFirst, if_neg hrt, List.countP_cons, ih]

theorem mem_updateFirst_of_ne (f : Registration → Registration)
    {x t : Registration} {regs : List Registration} (hx : x ∈ regs) (hne : x ≠ t) :
    x ∈ updateFirst t f regs := by
  induction regs with
  | nil => cases hx
  | cons r rs ih =>
    rcases List.mem_cons.mp hx with h | h
    · subst h
      simp only [updateFirst, if_neg hne]
      exact List.mem_cons_self _ _
    · by_cases hrt : r = t
      · subst hrt
        simp only [updateFirst, if_pos rfl]
        exact List.mem_cons_of_mem _ h
      · simp only [updateFirst, if_neg hrt]
        exact List.mem_cons_of_mem _ (ih h)

/-! ### FIFO-head lemmas -/

theorem oldestAux_mem (b : Registration) (l : List Registration) :
    oldestAux b l ∈ b :: l := by
  induction l generalizing b with
  | nil => simp [oldestAux]
  | cons r rs ih =>
    simp only [oldestAux]
    split
    · rcases List.mem_cons.mp (ih r) with h | h
      · rw [h]; simp
      · simp [h]
    · rcases List.mem_cons.mp (ih b) with h | h
      · rw [h]; simp
      · simp [h]

theorem oldestAux_le (b : Registration) (l : List Registration) :
    (oldestAux b l).created_at ≤ b.created_at ∧
      ∀ x ∈ l, (oldestAux b l).created_at ≤ x.created_at := by
  induction l generalizing b with
  | nil => simp [oldestAux]
  | cons r rs ih =>
    simp only [oldestAux]
    split
    · rename_i hlt
      refine ⟨le_of_lt (lt_of_le_of_lt (ih r).1 hlt), ?_⟩
      intro x hx
      rcases List.mem_cons.mp hx with h | h
      · rw [h]; exact (ih r).1
      · exact (ih r).2 x h
    · rename_i hge
      refine ⟨(ih b).1, ?_⟩
      intro x hx
      rcases List.mem_cons.mp hx with h | h
      · rw [h]
        exact le_trans (ih b).1 (le_of_not_lt hge)
      · exact (ih b).2 x h

theorem oldestWaitlist_mem {eid : Nat} {regs : List Registration} {w : Registration}
    (h : oldestWaitlist eid regs = some w) :
    w ∈ regs ∧ w.status = "waitlist" ∧ w.event_id = eid := by
  unfold oldestWaitlist at h
  rcases hw : waitlistRows eid regs with _ | ⟨r, rs⟩
  · rw [hw] at h; cases h
  · rw [hw] at h
    have hmem : w ∈ r :: rs := by
      injection h with h'
      rw [← h']
      exact oldestAux_mem r rs
    have hsub : w ∈ waitlistRows eid regs := hw ▸ hmem
    have hfil := List.of_mem_filter hsub
    have := isWaitlist_eq_true.mp hfil
    exact ⟨List.mem_of_mem_filter hsub, this.2, this.1⟩

theorem oldestWaitlist_min {eid : Nat} {regs : List Registration} {w : Registration}
    (h : oldestWaitlist eid regs = some w) :
    ∀ x ∈ regs, x.status = "waitlist" → x.event_id = eid →
      w.created_at ≤ x.created_at := by
  intro x hx hxs hxe
  have hxw : x ∈ waitlistRows eid regs :=
    List.mem_filter.mpr ⟨hx, isWaitlist_eq_true.mpr ⟨hxe, hxs⟩⟩
  unfold oldestWaitlist at h
  rcases hw : waitlistRows eid regs with _ | ⟨r, rs⟩
  · rw [hw] at h; cases h
  · rw [hw] at h
    injection h with h'
    rw [hw] at hxw
    rcases List.mem_cons.mp hxw with hh | hh
    · rw [hh]
      exact h' ▸ (oldestAux_le r rs).1
    · exact h' ▸ (oldestAux_le r rs).2 x hh

theorem oldestWaitlist_eq_none {eid : Nat} {regs : List Registration}
    (h : waitlistRows eid regs = []) : oldestWaitlist eid regs = none := by
  unfold oldestWaitlist
  rw [h]

theorem oldestWaitlist_isSome {eid : Nat} {regs : List Registration}
    (h : waitlistRows eid regs ≠ []) : ∃ w, oldestWaitlist eid regs = some w := by
  unfold oldestWaitlist
  rcases hw : waitlistRows eid regs with _ | ⟨r, rs⟩
  · exact absurd hw h
  · exact ⟨oldestAux r rs, rfl⟩

theorem isConfirmed_eq_false_of_status {eid : Nat} {r : Registration}
    (hs : r.status ≠ "confirmed") : isConfirmed eid r = false :=
  Bool.eq_false_iff.mpr fun hc => hs (isConfirmed_eq_true.mp hc).2

theorem isConfirmed_promoted (eid : Nat) (w : Registration) (he : w.event_id = eid) :
    isConfirmed eid { w with status := "confirmed" } = true :=
  isConfirmed_eq_true.mpr ⟨he, rfl⟩

theorem isWaitlist_eq_false_of_status {eid : Nat} {r : Registration}
    (hs : r.status ≠ "waitlist") : isWaitlist eid r = false :=
  Bool.eq_false_iff.mpr fun hc => hs (isWaitlist_eq_true.mp hc).2

/-! ### Behaviour of the promotion service -/

/-- `_atomic_promote` either leaves the store untouched and reports `none`,
or fires on the FIFO head with a seat strictly available. -/
theorem promote_cases (e : Nat) (db : DB) :
    promote_from_waitlist e db = (none, db) ∨
    ∃ w, oldestWaitlist e db.regs = some w ∧ e = db.event.id ∧
      0 < db.event.available_seats ∧
      promote_from_waitlist e db =
        (some { w with status := "confirmed" },
          { db with
              regs := updateFirst w (fun r => { r with status := "confirmed" }) db.regs
              event := { db.event with
                  available_seats := db.event.available_seats - 1 } }) := by
  unfold promote_from_waitlist
  split
  · exact Or.inl rfl
  · split
    · exact Or.inl rfl
    · rename_i hne hle
      split
      · exact Or.inl rfl
      · rename_i w hw
        exact Or.inr ⟨w, hw, not_not.mp hne, by omega, rfl⟩

theorem seatEq_promote (e : Nat) (db : DB) (h : seatEq db) :
    seatEq (promote_from_waitlist e db).2 := by
  rcases promote_cases e db with hc | ⟨w, hw, he, hpos, hc⟩
  · rw [hc]; exact h
  · rw [hc]
    obtain ⟨hmem, hstat, hev⟩ := oldestWaitlist_mem hw
    have hcc : (updateFirst w (fun r => { r with status := "confirmed" }) db.regs).countP
        (isConfirmed db.event.id) = db.regs.countP (isConfirmed db.event.id) + 1 :=
      countP_updateFirst_pos _ _ hmem
        (isConfirmed_eq_false_of_status (by rw [hstat]; decide))
        (isConfirmed_promoted _ _ (he ▸ hev))
    simp only [seatEq, ccount] at h ⊢
    rw [hcc]
    push_cast
    omega

theorem seats_nonneg_promote (e : Nat) (db : DB) (h : 0 ≤ db.event.available_seats) :
    0 ≤ (promote_from_waitlist e db).2.event.available_seats := by
  rcases promote_cases e db with hc | ⟨w, hw, he, hpos, hc⟩
  · rw [hc]; exact h
  · rw [hc]
    simp only
    omega

theorem ccount_promote_le (e eid : Nat) (db : DB) :
    ccount eid (promote_from_waitlist e db).2.regs ≤ ccount eid db.regs + 1 := by
  rcases promote_cases e db with hc | ⟨w, hw, he, hpos, hc⟩
  · rw [hc]; exact Nat.le_succ _
  · rw [hc]
    exact countP_updateFirst_le _ _ _ _

theorem eventFrame_promote (e : Nat) (db : DB) :
    (promote_from_waitlist e db).2.event.id = db.event.id ∧
    (promote_from_waitlist e db).2.event.max_participants = db.event.max_participants := by
  rcases promote_cases e db with hc | ⟨w, hw, he, hpos, hc⟩
  · rw [hc]; exact ⟨rfl, rfl⟩
  · rw [hc]; exact ⟨rfl, rfl⟩

/-! ### Behaviour of the two register entry points -/

theorem seatEq_register_event (now u e : Nat) (db : DB) (h : seatEq db) :
    seatEq (register_event now u e db).2 := by
  unfold register_event
  split
  · exact h
  split
  · exact h
  rename_i hid hgate
  split
  · rename_i existing heq
    split
    · rename_i hcanc
      split
      · exact h
      · rename_i hseats
        obtain ⟨hmem, -, hev⟩ := findReg_some heq
        have he : e = db.event.id := not_not.mp hid
        have hcc : (updateFirst existing
            (fun r => { r with status := "confirmed", payment_status := paymentFor db.event })
              db.regs).countP (isConfirmed db.event.id) =
            db.regs.countP (isConfirmed db.event.id) + 1 :=
          countP_updateFirst_pos _ _ hmem
            (isConfirmed_eq_false_of_status (by rw [hcanc]; decide))
            (isConfirmed_eq_true.mpr ⟨by rw [hev, he], rfl⟩)
        simp only [seatEq, ccount] at h ⊢
        rw [hcc]
        push_cast
        omega
    · exact h
  · rename_i heq
    split
    · exact h
    split
    · split
      · rename_i hdl hseats hwl
        have he : e = db.event.id := not_not.mp hid
        simp only [seatEq, ccount] at h ⊢
        rw [List.countP_append]
        have hnew : List.countP (isConfirmed db.event.id)
            [⟨db.next_id, u, e, "waitlist", "not_required", false, none, now⟩] = 0 := by
          simp [List.countP, List.countP.go, isConfirmed]
        rw [hnew]
        simpa using h
      · exact h
    · rename_i hdl hseats
      have he : e = db.event.id := not_not.mp hid
      simp only [seatEq, ccount] at h ⊢
      rw [List.countP_append]
      have hnew : List.countP (isConfirmed db.event.id)
          [⟨db.next_id, u, e, "confirmed", paymentFor db.event, false, none, now⟩] = 1 := by
        simp [List.countP, List.countP.go, isConfirmed, he]
      rw [hnew]
      push_cast
      omega

theorem seatEq_register_for_event (now u e : Nat) (db : DB) (h : seatEq db) :
    seatEq (register_for_event now u e db).2 := by
  unfold register_for_event
  split
  · exact h
  split
  · exact h
  split
  · exact h
  rename_i hu hid hdl
  split
  · exact h
  · split
    · exact h
    · rename_i heq hseats
      have he : e = db.event.id := not_not.mp hid
      simp only [seatEq, ccount] at h ⊢
      rw [List.countP_append]
      have hnew : List.countP (isConfirmed db.event.id)
          [⟨db.next_id, u, e, "confirmed", paymentFor db.event, false, none, now⟩] = 1 := by
        simp [List.countP, List.countP.go, isConfirmed, he]
      rw [hnew]
      push_cast
      omega

/-! ### Behaviour of the two cancel entry points and the remaining writes -/

theorem seatEq_cancel_registration (u e : Nat) (db : DB) (h : seatEq db) :
    seatEq (cancel_registration u e db).2 := by
  unfold cancel_registration
  split
  · exact h
  rename_i registration heq
  split
  · exact h
  split
  · exact h
  rename_i hatt hid
  obtain ⟨hmem, -, hev⟩ := findReg_some heq
  have he : e = db.event.id := not_not.mp hid
  split
  · rename_i hconf
    split
    · rename_i w hw
      obtain ⟨hwm, hws, hwev⟩ := oldestWaitlist_mem hw
      have hcc1 : (updateFirst w (fun r => { r with status := "confirmed" }) db.regs).countP
          (isConfirmed db.event.id) = db.regs.countP (isConfirmed db.event.id) + 1 :=
        countP_updateFirst_pos _ _ hwm
          (isConfirmed_eq_false_of_status (by rw [hws]; decide))
          (isConfirmed_promoted _ _ (he ▸ hwev))
      have hne : registration ≠ w := by
        intro hrw
        rw [hrw, hws] at hconf
        exact absurd hconf (by decide)
      have hmem1 : registration ∈
          updateFirst w (fun r => { r with status := "confirmed" }) db.regs :=
        mem_updateFirst_of_ne _ hmem hne
      have hcc2 : (eraseFirst registration
            (updateFirst w (fun r => { r with status := "confirmed" }) db.regs)).countP
          (isConfirmed db.event.id) + 1 =
          (updateFirst w (fun r => { r with status := "confirmed" }) db.regs).countP
            (isConfirmed db.event.id) :=
        countP_eraseFirst_true _ hmem1 (isConfirmed_eq_true.mpr ⟨he ▸ hev, hconf⟩)
      simp only [seatEq, ccount] at h ⊢
      omega
    · rename_i hw
      have hcc : (eraseFirst registration db.regs).countP (isConfirmed db.event.id) + 1 =
          db.regs.countP (isConfirmed db.event.id) :=
        countP_eraseFirst_true _ hmem (isConfirmed_eq_true.mpr ⟨he ▸ hev, by assumption⟩)
      simp only [seatEq, ccount] at h ⊢
      omega
  · rename_i hconf
    have hcc := countP_eraseFirst_false (isConfirmed db.event.id) registration db.regs
      (isConfirmed_eq_false_of_status hconf)
    simp only [seatEq, ccount] at h ⊢
    rw [hcc]
    exact h

theorem seatEq_route_cancel (cu rid : Nat) (db : DB) (h : seatEq db) :
    seatEq (route_cancel_registration cu rid db).2 := by
  unfold route_cancel_registration
  split
  · exact h
  rename_i registration heq
  split
  · exact h
  split
  · exact h
  split
  · exact h
  rename_i hown hatt hid
  obtain ⟨hmem, hrid⟩ := findRegById_some heq
  have hev : registration.event_id = db.event.id := not_not.mp hid
  split
  · rename_i hconf
    apply seatEq_promote
    have hcc : (eraseFirst registration db.regs).countP (isConfirmed db.event.id) + 1 =
        db.regs.countP (isConfirmed db.event.id) :=
      countP_eraseFirst_true _ hmem (isConfirmed_eq_true.mpr ⟨hev, hconf⟩)
    simp only [seatEq, ccount] at h ⊢
    omega
  · rename_i hconf
    have hcc := countP_eraseFirst_false (isConfirmed db.event.id) registration db.regs
      (isConfirmed_eq_false_of_status hconf)
    simp only [seatEq, ccount] at h ⊢
    rw [hcc]
    exact h

theorem seatEq_update_event (e o ed rd : Nat) (m : Int) (db : DB) (h : seatEq db)
    (hs : resizeSafe db (.resize e o ed rd m) = true) :
    seatEq (update_event e o ed rd m db).2 := by
  unfold update_event
  split
  · exact h
  rename_i hok
  have he : e = db.event.id := by
    rcases not_or.mp hok with ⟨h1, -⟩
    exact not_not.mp h1
  split
  · rename_i hcond
    simp only [resizeSafe, Bool.or_eq_true, beq_iff_eq, decide_eq_true_eq] at hs
    rcases hs with (h1 | h2) | h3
    · exact absurd h1 hcond.1
    · exact absurd h2 hcond.2
    · subst he
      simp only [seatEq, ccount] at h3 ⊢
      rw [max_eq_right (sub_nonneg.mpr h3)]
  · exact h

theorem seatEq_update_event_status (now e : Nat) (s : String) (r : Option String)
    (p : Option Nat) (db : DB) (h : seatEq db) :
    seatEq (update_event_status now e s r p db).2 := by
  unfold update_event_status
  split
  · exact h
  split
  · exact h
  split
  · split
    · exact h
    · exact h
  split
  · exact h
  · exact h

theorem seatEq_mark_attendance (now rid : Nat) (db : DB) (h : seatEq db) :
    seatEq (mark_attendance now rid db).2 := by
  unfold mark_attendance
  split
  · exact h
  rename_i registration heq
  split
  · exact h
  · have hcc := countP_updateFirst_frame (isConfirmed db.event.id)
      (fun r => { r with attended := true, attendance_time := some now })
      registration db.regs rfl
    simp only [seatEq, ccount] at h ⊢
    rw [hcc]
    exact h

/-! ### Conservation and non-negativity over every operation -/

theorem seatEq_applyOp (op : Op) (db : DB) (h : seatEq db)
    (hs : resizeSafe db op = true) : seatEq (applyOp op db) := by
  cases op with
  | regRoute now u e => exact seatEq_register_event now u e db h
  | regSvc now u e => exact seatEq_register_for_event now u e db h
  | cancelSvc u e => exact seatEq_cancel_registration u e db h
  | cancelRoute cu rid => exact seatEq_route_cancel cu rid db h
  | promote e => exact seatEq_promote e db h
  | resize e o ed rd m => exact seatEq_update_event e o ed rd m db h hs
  | setStatus now e s r p => exact seatEq_update_event_status now e s r p db h
  | attend now rid => exact seatEq_mark_attendance now rid db h

theorem seatEq_applyOps (ops : List Op) (db : DB) (h : seatEq db)
    (hs : safeSeq db ops = true) : seatEq (applyOps ops db) := by
  induction ops generalizing db with
  | nil => exact h
  | cons op rest ih =>
    simp only [safeSeq, Bool.and_eq_true] at hs
    exact ih (applyOp op db) (seatEq_applyOp op db h hs.1) hs.2

theorem seats_nonneg_register_event (now u e : Nat) (db : DB)
    (h : 0 ≤ db.event.available_seats) :
    0 ≤ (register_event now u e db).2.event.available_seats := by
  unfold register_event
  split
  · exact h
  split
  · exact h
  split
  · split
    · split
      · exact h
      · rename_i hseats
        simp only
        omega
    · exact h
  · split
    · exact h
    split
    · split
      · exact h
      · exact h
    · rename_i hseats
      simp only
      omega

theorem seats_nonneg_register_for_event (now u e : Nat) (db : DB)
    (h : 0 ≤ db.event.available_seats) :
    0 ≤ (register_for_event now u e db).2.event.available_seats := by
  unfold register_for_event
  split
  · exact h
  split
  · exact h
  split
  · exact h
  split
  · exact h
  · split
    · exact h
    · rename_i hseats
      simp only
      omega

theorem seats_nonneg_cancel_registration (u e : Nat) (db : DB)
    (h : 0 ≤ db.event.available_seats) :
    0 ≤ (cancel_registration u e db).2.event.available_seats := by
  unfold cancel_registration
  split
  · exact h
  split
  · exact h
  split
  · exact h
  split
  · split
    · simp only
      omega
    · simp only
      omega
  · exact h

theorem seats_nonneg_route_cancel (cu rid : Nat) (db : DB)
    (h : 0 ≤ db.event.available_seats) :
    0 ≤ (route_cancel_registration cu rid db).2.event.available_seats := by
  unfold route_cancel_registration
  split
  · exact h
  split
  · exact h
  split
  · exact h
  split
  · exact h
  split
  · apply seats_nonneg_promote
    simp only
    omega
  · exact h

theorem seats_nonneg_update_event (e o ed rd : Nat) (m : Int) (db : DB)
    (h : 0 ≤ db.event.available_seats) :
    0 ≤ (update_event e o ed rd m db).2.event.available_seats := by
  unfold update_event
  split
  · exact h
  split
  · exact le_max_left 0 _
  · exact h

theorem seats_nonneg_update_event_status (now e : Nat) (s : String) (r : Option String)
    (p : Option Nat) (db : DB) (h : 0 ≤ db.event.available_seats) :
    0 ≤ (update_event_status now e s r p db).2.event.available_seats := by
  unfold update_event_status
  split
  · exact h
  split
  · exact h
  split
  · split
    · exact h
    · exact h
  split
  · exact h
  · exact h

theorem seats_nonneg_mark_attendance (now rid : Nat) (db : DB)
    (h : 0 ≤ db.event.available_seats) :
    0 ≤ (mark_attendance now rid db).2.event.available_seats := by
  unfold mark_attendance
  split
  · exact h
  split
  · exact h
  · exact h

theorem seats_nonneg_applyOp (op : Op) (db : DB) (h : 0 ≤ db.event.available_seats) :
    0 ≤ (applyOp op db).event.available_seats := by
  cases op with
  | regRoute now u e => exact seats_nonneg_register_event now u e db h
  | regSvc now u e => exact seats_nonneg_register_for_event now u e db h
  | cancelSvc u e => exact seats_nonneg_cancel_registration u e db h
  | cancelRoute cu rid => exact seats_nonneg_route_cancel cu rid db h
  | promote e => exact seats_nonneg_promote e db h
  | resize e o ed rd m => exact seats_nonneg_update_event e o ed rd m db h
  | setStatus now e s r p => exact seats_nonneg_update_event_status now e s r p db h
  | attend now rid => exact seats_nonneg_mark_attendance now rid db h

theorem seats_nonneg_applyOps (ops : List Op) (db : DB)
    (h : 0 ≤ db.event.available_seats) :
    0 ≤ (applyOps ops db).event.available_seats := by
  induction ops generalizing db with
  | nil => exact h
  | cons op rest ih => exact ih (applyOp op db) (seats_nonneg_applyOp op db h)

/-! ### A confirmed row can only appear while a seat is strictly available -/

theorem ccount_guard_register_event (now u e : Nat) (db : DB)
    (h : ccount db.event.id db.regs <
      ccount db.event.id (register_event now u e db).2.regs) :
    0 < db.event.available_seats := by
  unfold register_event at h
  split at h
  · exact absurd h (lt_irrefl _)
  split at h
  · exact absurd h (lt_irrefl _)
  split at h
  · split at h
    · split at h
      · exact absurd h (lt_irrefl _)
      · rename_i hseats
        omega
    · exact absurd h (lt_irrefl _)
  · split at h
    · exact absurd h (lt_irrefl _)
    split at h
    · split at h
      · rename_i hseats hwl
        simp only [ccount, List.countP_append] at h
        have hz : List.countP (isConfirmed db.event.id)
            [⟨db.next_id, u, e, "waitlist", "not_required", false, none, now⟩] = 0 := by
          simp [List.countP, List.countP.go, isConfirmed]
        rw [hz] at h
        omega
      · exact absurd h (lt_irrefl _)
    · rename_i hdl hseats
      omega

theorem ccount_guard_register_for_event (now u e : Nat) (db : DB)
    (h : ccount db.event.id db.regs <
      ccount db.event.id (register_for_event now u e db).2.regs) :
    0 < db.event.available_seats := by
  unfold register_for_event at h
  split at h
  · exact absurd h (lt_irrefl _)
  split at h
  · exact absurd h (lt_irrefl _)
  split at h
  · exact absurd h (lt_irrefl _)
  split at h
  · exact absurd h (lt_irrefl _)
  · split at h
    · exact absurd h (lt_irrefl _)
    · rename_i hseats
      omega

theorem ccount_guard_promote (e : Nat) (db : DB)
    (h : ccount db.event.id db.regs <
      ccount db.event.id (promote_from_waitlist e db).2.regs) :
    0 < db.event.available_seats := by
  rcases promote_cases e db with hc | ⟨w, hw, he, hpos, hc⟩
  · rw [hc] at h
    exact absurd h (lt_irrefl _)
  · exact hpos

theorem ccount_guard_cancel_registration (u e : Nat) (db : DB)
    (h : ccount db.event.id db.regs <
      ccount db.event.id (cancel_registration u e db).2.regs) :
    0 < db.event.available_seats := by
  exfalso
  unfold cancel_registration at h
  split at h
  · exact absurd h (lt_irrefl _)
  rename_i registration heq
  split at h
  · exact absurd h (lt_irrefl _)
  split at h
  · exact absurd h (lt_irrefl _)
  rename_i hatt hid
  obtain ⟨hmem, -, hev⟩ := findReg_some heq
  have he : e = db.event.id := not_not.mp hid
  split at h
  · rename_i hconf
    split at h
    · rename_i w hw
      obtain ⟨hwm, hws, hwev⟩ := oldestWaitlist_mem hw
      have hcc1 : (updateFirst w (fun r => { r with status := "confirmed" }) db.regs).countP
          (isConfirmed db.event.id) = db.regs.countP (isConfirmed db.event.id) + 1 :=
        countP_updateFirst_pos _ _ hwm
          (isConfirmed_eq_false_of_status (by rw [hws]; decide))
          (isConfirmed_promoted _ _ (he ▸ hwev))
      have hne : registration ≠ w := by
        intro hrw
        rw [hrw, hws] at hconf
        exact absurd hconf (by decide)
      have hmem1 : registration ∈
          updateFirst w (fun r => { r with status := "confirmed" }) db.regs :=
        mem_updateFirst_of_ne _ hmem hne
      have hcc2 : (eraseFirst registration
            (updateFirst w (fun r => { r with status := "confirmed" }) db.regs)).countP
          (isConfirmed db.event.id) + 1 =
          (updateFirst w (fun r => { r with status := "confirmed" }) db.regs).countP
            (isConfirmed db.event.id) :=
        countP_eraseFirst_true _ hmem1 (isConfirmed_eq_true.mpr ⟨he ▸ hev, hconf⟩)
      simp only [ccount] at h
      omega
    · rename_i hw
      have hcc : (eraseFirst registration db.regs).countP (isConfirmed db.event.id) + 1 =
          db.regs.countP (isConfirmed db.event.id) :=
        countP_eraseFirst_true _ hmem (isConfirmed_eq_true.mpr ⟨he ▸ hev, by assumption⟩)
      simp only [ccount] at h
      omega
  · rename_i hconf
    have hcc := countP_eraseFirst_false (isConfirmed db.event.id) registration db.regs
      (isConfirmed_eq_false_of_status hconf)
    simp only [ccount] at h
    omega

theorem ccount_guard_route_cancel (cu rid : Nat) (db : DB)
    (h : ccount db.event.id db.regs <
      ccount db.event.id (route_cancel_registration cu rid db).2.regs) :
    0 < db.event.available_seats := by
  exfalso
  unfold route_cancel_registration at h
  split at h
  · exact absurd h (lt_irrefl _)
  rename_i registration heq
  split at h
  · exact absurd h (lt_irrefl _)
  split at h
  · exact absurd h (lt_irrefl _)
  split at h
  · exact absurd h (lt_irrefl _)
  rename_i hown hatt hid
  obtain ⟨hmem, hrid⟩ := findRegById_some heq
  have hev : registration.event_id = db.event.id := not_not.mp hid
  split at h
  · rename_i hconf
    have hcc : (eraseFirst registration db.regs).countP (isConfirmed db.event.id) + 1 =
        db.regs.countP (isConfirmed db.event.id) :=
      countP_eraseFirst_true _ hmem (isConfirmed_eq_true.mpr ⟨hev, hconf⟩)
    have hle := ccount_promote_le registration.event_id db.event.id
      { db with
          regs := eraseFirst registration db.regs
          event := { db.event with
              available_seats := db.event.available_seats + 1 } }
    simp only [ccount] at h hle
    omega
  · rename_i hconf
    have hcc := countP_eraseFirst_false (isConfirmed db.event.id) registration db.regs
      (isConfirmed_eq_false_of_status hconf)
    simp only [ccount] at h
    omega

theorem ccount_guard_update_event (e o ed rd : Nat) (m : Int) (db : DB)
    (h : ccount db.event.id db.regs <
      ccount db.event.id (update_event e o ed rd m db).2.regs) :
    0 < db.event.available_seats := by
  exfalso
  unfold update_event at h
  split at h
  · exact absurd h (lt_irrefl _)
  split at h
  · exact absurd h (lt_irrefl _)
  · exact absurd h (lt_irrefl _)

theorem ccount_guard_update_event_status (now e : Nat) (s : String) (r : Option String)
    (p : Option Nat) (db : DB)
    (h : ccount db.event.id db.regs <
      ccount db.event.id (update_event_status now e s r p db).2.regs) :
    0 < db.event.available_seats := by
  exfalso
  unfold update_event_status at h
  split at h
  · exact absurd h (lt_irrefl _)
  split at h
  · exact absurd h (lt_irrefl _)
  split at h
  · split at h
    · exact absurd h (lt_irrefl _)
    · exact absurd h (lt_irrefl _)
  split at h
  · exact absurd h (lt_irrefl _)
  · exact absurd h (lt_irrefl _)

theorem ccount_guard_mark_attendance (now rid : Nat) (db : DB)
    (h : ccount db.event.id db.regs <
      ccount db.event.id (mark_attendance now rid db).2.regs) :
    0 < db.event.available_seats := by
  exfalso
  unfold mark_attendance at h
  split at h
  · exact absurd h (lt_irrefl _)
  rename_i registration heq
  split at h
  · exact absurd h (lt_irrefl _)
  · have hcc := countP_updateFirst_frame (isConfirmed db.event.id)
      (fun r => { r with attended := true, attendance_time := some now })
      registration db.regs rfl
    simp only [ccount] at h
    omega

theorem map_updateFirst_frame {β : Type} (g : Registration → β)
    (f : Registration → Registration) (t : Registration) (l : List Registration)
    (h : g (f t) = g t) : (updateFirst t f l).map g = l.map g := by
  induction l with
  | nil => rfl
  | cons r rs ih =>
    by_cases hrt : r = t
    · subst hrt
      simp [updateFirst, h]
    · simp only [updateFirst, if_neg hrt, List.map_cons, ih]

theorem findRegById_updateFirst {i : Nat} {regs : List Registration} {r : Registration}
    (f : Registration → Registration) (hf : (f r).id = r.id)
    (h : findRegById i regs = some r) :
    findRegById i (updateFirst r f regs) = some (f r) := by
  induction regs with
  | nil => cases h
  | cons x rs ih =>
    by_cases hx : (x.id == i) = true
    · have hxr : x = r := by
        unfold findRegById at h
        rw [@List.find?_cons_of_pos _ (fun q => q.id == i) x rs hx] at h
        injection h
      subst hxr
      have hstep : updateFirst x f (x :: rs) = f x :: rs := by
        simp [updateFirst]
      rw [hstep]
      unfold findRegById
      have hfx : ((f x).id == i) = true := by
        rw [hf]
        exact hx
      rw [@List.find?_cons_of_pos _ (fun q => q.id == i) (f x) rs hfx]
    · have hns : findRegById i rs = some r := by
        unfold findRegById at h
        rw [@List.find?_cons_of_neg _ (fun q => q.id == i) x rs hx] at h
        exact h
      have hxr : x ≠ r := by
        intro hxr
        subst hxr
        exact absurd (beq_iff_eq.mpr (findRegById_some hns).2) hx
      have hstep : updateFirst r f (x :: rs) = x :: updateFirst r f rs := by
        simp [updateFirst, hxr]
      rw [hstep]
      unfold findRegById
      rw [@List.find?_cons_of_neg _ (fun q => q.id == i) x (updateFirst r f rs) hx]
      exact ih hns

theorem ccount_guard_applyOp (op : Op) (db : DB)
    (h : ccount db.event.id db.regs < ccount db.event.id (applyOp op db).regs) :
    0 < db.event.available_seats := by
  cases op with
  | regRoute now u e => exact ccount_guard_register_event now u e db h
  | regSvc now u e => exact ccount_guard_register_for_event now u e db h
  | cancelSvc u e => exact ccount_guard_cancel_registration u e db h
  | cancelRoute cu rid => exact ccount_guard_route_cancel cu rid db h
  | promote e => exact ccount_guard_promote e db h
  | resize e o ed rd m => exact ccount_guard_update_event e o ed rd m db h
  | setStatus now e s r p => exact ccount_guard_update_event_status now e s r p db h
  | attend now rid => exact ccount_guard_mark_attendance now rid db h

/-! ### The claims -/

/-- C1, counterexample: the conservation equality
`available_seats = max_participants - confirmed_count` survives two
registrations but is destroyed by a capacity resize below the confirmed
count — `update_event` clamps `available_seats` at `0` while the right-hand
side goes negative. -/
theorem claim_C1_counterexample :
    seatEq dbResize ∧ ¬ seatEq (applyOps opsResize dbResize) := by
  constructor
  · decide
  · decide

/-- C1, amended: for every event, `available_seats = max_participants -
count(confirmed)` is preserved by every sequence of register, cancel,
promote, status-update, attendance and capacity-resize operations, provided
every resize either leaves the capacity column untouched or sets it to at
least the current confirmed count; a resize below the confirmed count clamps
`available_seats` to `0` and breaks the equality. -/
theorem claim_C1_conservation (db : DB) (ops : List Op) (h : seatEq db)
    (hs : safeSeq db ops = true) : seatEq (applyOps ops db) :=
  seatEq_applyOps ops db h hs

/-- C1, witness: the amended conservation theorem at a concrete store and a
concrete register-register-resize sequence whose resize keeps the new
capacity above the confirmed count. -/
theorem claim_C1_witness :
    seatEq (applyOps [.regRoute 10 7 1, .regRoute 10 8 1, .resize 1 9 100 50 3]
      dbResize) :=
  claim_C1_conservation dbResize _ (by decide) (by decide)

/-- C2: starting from a non-negative seat count, `available_seats` stays
non-negative across every sequence of operations, and a single operation can
only increase the number of confirmed rows of the event when
`available_seats` was strictly positive before it ran (the confirming step of
a cancellation runs after the cancelled seat has been returned, so the count
of confirmed rows never rises there). -/
theorem claim_C2_no_oversell (db : DB) (h0 : 0 ≤ db.event.available_seats) :
    (∀ ops : List Op, 0 ≤ (applyOps ops db).event.available_seats) ∧
    ∀ op : Op, ccount db.event.id db.regs < ccount db.event.id (applyOp op db).regs →
      0 < db.event.available_seats :=
  ⟨fun ops => seats_nonneg_applyOps ops db h0,
    fun op h => ccount_guard_applyOp op db h⟩

/-- C2, witness: the no-oversell theorem applied to a concrete store and a
concrete sequence that fills the event and then downsizes it. -/
theorem claim_C2_witness :
    0 ≤ (applyOps opsResize dbResize).event.available_seats :=
  (claim_C2_no_oversell dbResize (by decide)).1 opsResize

/-- C3: whenever `_atomic_promote` promotes a registration, the promoted row
is a waitlist row of the event whose `created_at` is minimal among all
waitlist rows of that event; and in the concrete A-B-C scenario (waitlist
rows created at times 10, 11, 12), the cancellation of the first confirmed
seat promotes A and the next cancellation promotes B — the same FIFO query
drives the promotion embedded in `cancel_registration`. -/
theorem claim_C3_fifo :
    (∀ (e : Nat) (db : DB) (r : Registration) (db2 : DB),
        promote_from_waitlist e db = (some r, db2) →
          ∃ w ∈ db.regs, w.status = "waitlist" ∧ w.event_id = db.event.id ∧
            r = { w with status := "confirmed" } ∧
            ∀ x ∈ db.regs, x.status = "waitlist" → x.event_id = db.event.id →
              w.created_at ≤ x.created_at) ∧
    ((findRegById 3 (cancel_registration 21 1 dbFifo).2.regs).map (·.status) =
        some "confirmed" ∧
      (findRegById 4 (cancel_registration 21 1 dbFifo).2.regs).map (·.status) =
        some "waitlist" ∧
      (findRegById 4 (cancel_registration 22 1
          (cancel_registration 21 1 dbFifo).2).2.regs).map (·.status) =
        some "confirmed" ∧
      (findRegById 5 (cancel_registration 22 1
          (cancel_registration 21 1 dbFifo).2).2.regs).map (·.status) =
        some "waitlist") := by
  constructor
  · intro e db r db2 hEq
    rcases promote_cases e db with hc | ⟨w, hw, he, hpos, hc⟩
    · rw [hc] at hEq
      cases hEq
    · rw [hc] at hEq
      injection hEq with h1 h2
      injection h1 with h1
      obtain ⟨hmem, hstat, hev⟩ := oldestWaitlist_mem hw
      refine ⟨w, hmem, hstat, hev.trans he, h1.symm, ?_⟩
      intro x hx hxs hxe
      exact oldestWaitlist_min hw x hx hxs (hxe.trans he.symm)
  · decide

/-- C3, witness: the FIFO selection theorem at a concrete promotion that must
pick the older of two waitlist rows even though it is listed second. -/
theorem claim_C3_witness :
    ∃ w ∈ dbPromote.regs, w.status = "waitlist" ∧ w.event_id = dbPromote.event.id ∧
      (⟨2, 42, 1, "confirmed", "not_required", false, none, 5⟩ : Registration) =
        { w with status := "confirmed" } ∧
      ∀ x ∈ dbPromote.regs, x.status = "waitlist" → x.event_id = dbPromote.event.id →
        w.created_at ≤ x.created_at :=
  claim_C3_fifo.1 1 dbPromote _ _ rfl

/-- C4: `promote_from_waitlist(event_id)` returns `none` and leaves the store
untouched whenever the event is missing, `available_seats <= 0`, or the event
has no waitlist row; otherwise it returns the promoted row, confirms exactly
one waitlisted registration (confirmed count up by one, waitlist count down
by one) and decrements `available_seats` by exactly one. -/
theorem claim_C4_promotion_contract (e : Nat) (db : DB) :
    ((e ≠ db.event.id ∨ db.event.available_seats ≤ 0 ∨ waitlistRows e db.regs = []) →
        promote_from_waitlist e db = (none, db)) ∧
    (e = db.event.id → 0 < db.event.available_seats → waitlistRows e db.regs ≠ [] →
      ∃ r db2, promote_from_waitlist e db = (some r, db2) ∧
        r.status = "confirmed" ∧
        db2.event.available_seats = db.event.available_seats - 1 ∧
        db2.event.max_participants = db.event.max_participants ∧
        db2.event.id = db.event.id ∧
        ccount db.event.id db2.regs = ccount db.event.id db.regs + 1 ∧
        wcount db.event.id db2.regs + 1 = wcount db.event.id db.regs) := by
  constructor
  · intro hcond
    rcases promote_cases e db with hc | ⟨w, hw, he, hpos, hc⟩
    · exact hc
    · exfalso
      rcases hcond with h1 | h2 | h3
      · exact h1 he
      · omega
      · have hnone := oldestWaitlist_eq_none h3
        rw [hnone] at hw
        cases hw
  · intro he hpos hwl
    subst he
    obtain ⟨w, hw⟩ := oldestWaitlist_isSome hwl
    obtain ⟨hmem, hstat, hev⟩ := oldestWaitlist_mem hw
    refine ⟨{ w with status := "confirmed" },
      { db with
          regs := updateFirst w (fun r => { r with status := "confirmed" }) db.regs
          event := { db.event with
              available_seats := db.event.available_seats - 1 } },
      ?_, rfl, rfl, rfl, rfl, ?_, ?_⟩
    · unfold promote_from_waitlist
      rw [if_neg (not_not.mpr rfl), if_neg (by omega), hw]
    · exact countP_updateFirst_pos _ _ hmem
        (isConfirmed_eq_false_of_status (by rw [hstat]; decide))
        (isConfirmed_promoted _ _ hev)
    · exact countP_updateFirst_neg _ _ hmem
        (isWaitlist_eq_true.mpr ⟨hev, hstat⟩)
        (isWaitlist_eq_false_of_status
          (fun hcon => absurd (show ("confirmed" : String) = "waitlist" from hcon)
            (by decide)))

/-- C4, witness: the promotion contract applied to a full event with no free
seat (no-op) and to an event with one free seat and two waitlist rows. -/
theorem claim_C4_witness :
    promote_from_waitlist 1 dbFull = (none, dbFull) ∧
    ∃ r db2, promote_from_waitlist 1 dbPromote = (some r, db2) ∧
      r.status = "confirmed" ∧
      db2.event.available_seats = dbPromote.event.available_seats - 1 ∧
      db2.event.max_participants = dbPromote.event.max_participants ∧
      db2.event.id = dbPromote.event.id ∧
      ccount dbPromote.event.id db2.regs = ccount dbPromote.event.id dbPromote.regs + 1 ∧
      wcount dbPromote.event.id db2.regs + 1 = wcount dbPromote.event.id dbPromote.regs :=
  ⟨(claim_C4_promotion_contract 1 dbFull).1 (Or.inr (Or.inl (by decide))),
    (claim_C4_promotion_contract 1 dbPromote).2 (by decide) (by decide) (by decide)⟩

/-- C5: when a register request reaches the seat check and finds no seat
(`available_seats <= 0`), an event with `allow_waitlist` records a `waitlist`
row with no seat consumed and reports `waitlisted`; without `allow_waitlist`
it fails with the event-full error and writes nothing. -/
theorem claim_C5_register_when_full (now u e : Nat) (db : DB)
    (he : e = db.event.id)
    (hgate : db.event.status ≠ "cancelled" ∧ db.event.status ≠ "postponed")
    (hex : findReg u e db.regs = none)
    (hdl : ¬ db.event.registration_deadline < now)
    (hfull : db.event.available_seats ≤ 0) :
    (db.event.allow_waitlist = true →
      register_event now u e db =
        (.waitlisted,
          { db with
              regs := db.regs ++
                [⟨db.next_id, u, e, "waitlist", "not_required", false, none, now⟩]
              next_id := db.next_id + 1 })) ∧
    (db.event.allow_waitlist = false →
      register_event now u e db = (.eventFull, db)) := by
  constructor
  · intro hwl
    simp only [register_event, hex]
    rw [if_neg (not_not.mpr he), if_neg (not_or.mpr hgate), if_neg hdl, if_pos hfull,
      if_pos hwl]
  · intro hwl
    simp only [register_event, hex]
    rw [if_neg (not_not.mpr he), if_neg (not_or.mpr hgate), if_neg hdl, if_pos hfull,
      if_neg (by rw [hwl]; exact Bool.false_ne_true)]

/-- C5, witness: the register-when-full theorem on a one-seat sold-out event,
once with the waitlist allowed and once without. -/
theorem claim_C5_witness :
    register_event 20 8 1 dbFullWait =
      (.waitlisted,
        { dbFullWait with
            regs := dbFullWait.regs ++
              [⟨dbFullWait.next_id, 8, 1, "waitlist", "not_required", false, none, 20⟩]
            next_id := dbFullWait.next_id + 1 }) ∧
    register_event 20 8 1 dbFull = (.eventFull, dbFull) :=
  ⟨(claim_C5_register_when_full 20 8 1 dbFullWait (by decide) (by decide) (by decide)
      (by decide) (by decide)).1 (by decide),
    (claim_C5_register_when_full 20 8 1 dbFull (by decide) (by decide) (by decide)
      (by decide) (by decide)).2 (by decide)⟩

/-- C6: once the event's status is `cancelled`, every register call for it is
rejected by the status gate with the blocked outcome, whatever
`available_seats` holds, and the store is returned unchanged. -/
theorem claim_C6_cancelled_gate (now u : Nat) (db : DB)
    (hc : db.event.status = "cancelled") :
    register_event now u db.event.id db = (.statusBlocked, db) := by
  unfold register_event
  rw [if_neg (not_not.mpr rfl), if_pos (Or.inl hc)]

/-- C6, witness: the cancelled-event gate on a cancelled event that still has
ten free seats. -/
theorem claim_C6_witness :
    register_event 20 7 dbCancelled.event.id dbCancelled =
      (.statusBlocked, dbCancelled) :=
  claim_C6_cancelled_gate 20 7 dbCancelled (by decide)

/-- C7, counterexample: with the registration deadline (10) already passed at
time 20, a user holding a prior `cancelled` row re-registers successfully —
the route checks the existing row before the deadline, so the re-registration
branch never sees the deadline: the call returns the re-registered outcome,
confirms the row and consumes a seat instead of failing. -/
theorem claim_C7_counterexample :
    dbDeadline.event.registration_deadline < 20 ∧
    (register_event 20 7 1 dbDeadline).1 = .reRegistered 4 ∧
    (findRegById 4 (register_event 20 7 1 dbDeadline).2.regs).map (·.status) =
      some "confirmed" ∧
    (register_event 20 7 1 dbDeadline).2.event.available_seats =
      dbDeadline.event.available_seats - 1 := by
  decide

/-- C7, amended: after the registration deadline a register call with no
existing row for the `(user, event)` pair fails with the deadline error and
leaves the store unchanged; but when a prior `cancelled` row exists, the
re-registration branch runs before the deadline check, so with a seat
available the call succeeds, re-confirms the row and increments the
confirmed count — the deadline does not apply to re-registration. -/
theorem claim_C7_deadline (now u e : Nat) (db : DB)
    (he : e = db.event.id)
    (hgate : db.event.status ≠ "cancelled" ∧ db.event.status ≠ "postponed")
    (hdl : db.event.registration_deadline < now) :
    (findReg u e db.regs = none →
      register_event now u e db = (.deadlinePassed, db)) ∧
    (∀ ex, findReg u e db.regs = some ex → ex.status = "cancelled" →
      0 < db.event.available_seats →
      (register_event now u e db).1 = .reRegistered ex.id ∧
      ccount db.event.id (register_event now u e db).2.regs =
        ccount db.event.id db.regs + 1) := by
  constructor
  · intro hex
    simp only [register_event, hex]
    rw [if_neg (not_not.mpr he), if_neg (not_or.mpr hgate), if_pos hdl]
  · intro ex hex hcanc hseats
    have hstep : register_event now u e db =
        (.reRegistered ex.id,
          { db with
              regs := updateFirst ex
                (fun r => { r with
                    status := "confirmed"
                    payment_status := paymentFor db.event }) db.regs
              event := { db.event with
                  available_seats := db.event.available_seats - 1 } }) := by
      simp only [register_event, hex]
      rw [if_neg (not_not.mpr he), if_neg (not_or.mpr hgate), if_pos hcanc,
        if_neg (by omega)]
    rw [hstep]
    obtain ⟨hmem, -, hev⟩ := findReg_some hex
    refine ⟨rfl, ?_⟩
    exact countP_updateFirst_pos _ _ hmem
      (isConfirmed_eq_false_of_status (by rw [hcanc]; decide))
      (isConfirmed_eq_true.mpr ⟨by rw [hev, he], rfl⟩)

/-- C7, witness: the amended deadline theorem applied to a fresh registration
after the deadline (rejected) and to the concrete re-registration store
(accepted, confirmed count up by one). -/
theorem claim_C7_witness :
    register_event 60 7 1 dbActive = (.deadlinePassed, dbActive) ∧
    ((register_event 20 7 1 dbDeadline).1 = .reRegistered 4 ∧
      ccount dbDeadline.event.id (register_event 20 7 1 dbDeadline).2.regs =
        ccount dbDeadline.event.id dbDeadline.regs + 1) :=
  ⟨(claim_C7_deadline 60 7 1 dbActive (by decide) (by decide) (by decide)).1 (by decide),
    (claim_C7_deadline 20 7 1 dbDeadline (by decide) (by decide) (by decide)).2
      ⟨4, 7, 1, "cancelled", "not_required", false, none, 3⟩ (by decide) (by decide)
      (by decide)⟩

/-- C8, counterexample: `update_event_status` never reads the current status,
so a cancelled event is transitioned straight back to `active` — the call
succeeds and the status leaves the `cancelled` state, contradicting
terminality. -/
theorem claim_C8_counterexample :
    dbCancelled.event.status = "cancelled" ∧
    (update_event_status 50 1 "active" none none dbCancelled).1 = true ∧
    (update_event_status 50 1 "active" none none dbCancelled).2.event.status =
      "active" := by
  decide

/-- C8, amended: `update_event_status` validates only the new status (and a
present `postponed_to` when postponing) and never consults the current one:
for an existing event and a valid target the call succeeds and sets the
status to the target — in particular `cancelled → active` and
`cancelled → postponed` are accepted, so `cancelled` is not terminal. -/
theorem claim_C8_status_update (now e : Nat) (s : String) (r : Option String)
    (p : Option Nat) (db : DB) (he : e = db.event.id)
    (hv : s = "active" ∨ s = "cancelled" ∨ s = "postponed")
    (hp : s = "postponed" → p ≠ none) :
    (update_event_status now e s r p db).1 = true ∧
    (update_event_status now e s r p db).2.event.status = s := by
  have hval : ¬(s ≠ "active" ∧ s ≠ "cancelled" ∧ s ≠ "postponed") := by
    rcases hv with h | h | h
    · exact fun hcon => hcon.1 h
    · exact fun hcon => hcon.2.1 h
    · exact fun hcon => hcon.2.2 h
  unfold update_event_status
  rw [if_neg hval, if_neg (not_not.mpr he)]
  by_cases hsp : s = "postponed"
  · rw [if_pos hsp]
    rcases hq : p with _ | q
    · exact absurd hq (hp hsp)
    · exact ⟨rfl, rfl⟩
  · rw [if_neg hsp]
    by_cases hsc : s = "cancelled"
    · rw [if_pos hsc]
      exact ⟨rfl, rfl⟩
    · rw [if_neg hsc]
      exact ⟨rfl, rfl⟩

/-- C8, witness: the status-update theorem moving the concrete cancelled
event back to `active`. -/
theorem claim_C8_witness :
    (update_event_status 50 1 "active" none none dbCancelled).1 = true ∧
    (update_event_status 50 1 "active" none none dbCancelled).2.event.status =
      "active" :=
  claim_C8_status_update 50 1 "active" none none dbCancelled (by decide)
    (Or.inl rfl) (fun h => absurd h (by decide))

/-- C9, counterexample: postponing to a date already in the past succeeds —
at time 200 the event is postponed to time 50 and `event_date` is shifted to
50; no future-date validation exists anywhere in the call chain. -/
theorem claim_C9_counterexample :
    (update_event_status 200 1 "postponed" none (some 50) dbActive).1 = true ∧
    (update_event_status 200 1 "postponed" none (some 50) dbActive).2.event.event_date
      = 50 ∧
    50 < 200 := by
  decide

/-- C9, amended: postponement requires only that a `postponed_to` value is
present — with no date given the call fails and changes nothing, and with any
date (past or future) it succeeds, shifts `event_date` to that value, records
`postponed_to` and keeps the event bookable (`is_active = true`). -/
theorem claim_C9_postponement (now e : Nat) (r : Option String) (p : Nat) (db : DB)
    (he : e = db.event.id) :
    update_event_status now e "postponed" r none db = (false, db) ∧
    (update_event_status now e "postponed" r (some p) db).1 = true ∧
    (update_event_status now e "postponed" r (some p) db).2.event.event_date = p ∧
    (update_event_status now e "postponed" r (some p) db).2.event.postponed_to =
      some p ∧
    (update_event_status now e "postponed" r (some p) db).2.event.is_active = true := by
  have hval :
      ¬(("postponed" : String) ≠ "active" ∧ ("postponed" : String) ≠ "cancelled" ∧
        ("postponed" : String) ≠ "postponed") :=
    fun hcon => hcon.2.2 rfl
  have hsome : update_event_status now e "postponed" r (some p) db =
      (true,
        { db with
            event := { db.event with
                status := "postponed"
                status_reason := normReason r
                postponed_to := some p
                event_date := p
                is_active := true
                cancelled_at := none } }) := by
    unfold update_event_status
    rw [if_neg hval, if_neg (not_not.mpr he), if_pos rfl]
  have hnone : update_event_status now e "postponed" r none db = (false, db) := by
    unfold update_event_status
    rw [if_neg hval, if_neg (not_not.mpr he), if_pos rfl]
  exact ⟨hnone, by rw [hsome], by rw [hsome], by rw [hsome], by rw [hsome]⟩

/-- C9, witness: the postponement theorem on the concrete active event,
postponed to time 50 while the clock reads 200. -/
theorem claim_C9_witness :
    update_event_status 200 1 "postponed" none none dbActive = (false, dbActive) ∧
    (update_event_status 200 1 "postponed" none (some 50) dbActive).1 = true ∧
    (update_event_status 200 1 "postponed" none (some 50) dbActive).2.event.event_date
      = 50 ∧
    (update_event_status 200 1 "postponed" none (some 50)
      dbActive).2.event.postponed_to = some 50 ∧
    (update_event_status 200 1 "postponed" none (some 50) dbActive).2.event.is_active
      = true := by
  have h := claim_C9_postponement 200 1 none 50 dbActive (by decide)
  exact h

/-- C10: for an existing registration, `mark_attendance` reports success,
leaves the event row (and so `available_seats`) untouched, preserves every
row's id, user, event, status, payment status and creation time, sets
`attended` and records `attendance_time`, and a second call on the already
attended row succeeds without changing anything (idempotent). -/
theorem claim_C10_attendance (now now2 rid : Nat) (db : DB) (r : Registration)
    (hr : findRegById rid db.regs = some r) :
    (mark_attendance now rid db).1 = true ∧
    (mark_attendance now rid db).2.event = db.event ∧
    ((mark_attendance now rid db).2.regs.map
        (fun x => (x.id, x.user_id, x.event_id, x.status, x.payment_status,
          x.created_at)) =
      db.regs.map
        (fun x => (x.id, x.user_id, x.event_id, x.status, x.payment_status,
          x.created_at))) ∧
    (findRegById rid (mark_attendance now rid db).2.regs).map (·.attended) =
      some true ∧
    (findRegById rid (mark_attendance now rid db).2.regs).map (·.attendance_time) =
      some (if r.attended then r.attendance_time else some now) ∧
    mark_attendance now2 rid (mark_attendance now rid db).2 =
      (true, (mark_attendance now rid db).2) := by
  by_cases hatt : r.attended = true
  · have hstep : mark_attendance now rid db = (true, db) := by
      simp [mark_attendance, hr, hatt]
    have hstep2 : mark_attendance now2 rid db = (true, db) := by
      simp [mark_attendance, hr, hatt]
    rw [hstep]
    refine ⟨rfl, rfl, rfl, ?_, ?_, hstep2⟩
    · rw [hr]
      simp [hatt]
    · rw [hr]
      simp [hatt]
  · have hstep : mark_attendance now rid db =
        (true,
          { db with
              regs := updateFirst r
                (fun x => { x with attended := true, attendance_time := some now })
                db.regs }) := by
      simp [mark_attendance, hr, hatt]
    have hfind : findRegById rid
        (updateFirst r (fun x => { x with attended := true, attendance_time := some now })
          db.regs) =
        some { r with attended := true, attendance_time := some now } :=
      findRegById_updateFirst _ rfl hr
    rw [hstep]
    refine ⟨rfl, rfl, ?_, ?_, ?_, ?_⟩
    · exact map_updateFirst_frame _ _ _ _ rfl
    · have hregs : ((true,
          { db with
              regs := updateFirst r
                (fun x => { x with attended := true, attendance_time := some now })
                db.regs }) : Bool × DB).2.regs =
          updateFirst r (fun x => { x with attended := true, attendance_time := some now })
            db.regs := rfl
      rw [hregs, hfind]
      rfl
    · have hregs : ((true,
          { db with
              regs := updateFirst r
                (fun x => { x with attended := true, attendance_time := some now })
                db.regs }) : Bool × DB).2.regs =
          updateFirst r (fun x => { x with attended := true, attendance_time := some now })
            db.regs := rfl
      rw [hregs, hfind]
      simp [hatt]
    · simp only [mark_attendance]
      rw [hfind]
      rfl

/-- C10, witness: attendance marking on the concrete registration store:
flag set, frame preserved, second call a no-op. -/
theorem claim_C10_witness :
    (mark_attendance 30 1 dbAttend).1 = true ∧
    (mark_attendance 30 1 dbAttend).2.event = dbAttend.event ∧
    ((mark_attendance 30 1 dbAttend).2.regs.map
        (fun x => (x.id, x.user_id, x.event_id, x.status, x.payment_status,
          x.created_at)) =
      dbAttend.regs.map
        (fun x => (x.id, x.user_id, x.event_id, x.status, x.payment_status,
          x.created_at))) ∧
    (findRegById 1 (mark_attendance 30 1 dbAttend).2.regs).map (·.attended) =
      some true ∧
    (findRegById 1 (mark_attendance 30 1 dbAttend).2.regs).map (·.attendance_time) =
      some (if (⟨1, 7, 1, "confirmed", "not_required", false, none, 1⟩ :
        Registration).attended then
          (⟨1, 7, 1, "confirmed", "not_required", false, none, 1⟩ :
            Registration).attendance_time
        else some 30) ∧
    mark_attendance 40 1 (mark_attendance 30 1 dbAttend).2 =
      (true, (mark_attendance 30 1 dbAttend).2) :=
  claim_C10_attendance 30 40 1 dbAttend
    ⟨1, 7, 1, "confirmed", "not_required", false, none, 1⟩ (by decide)

end EventHub
